import Mathlib

/-!
Verification of the centerline / cross-sectional-area (CSA) pipeline of
`sct_process_segmentation.py` (spinalcordtoolbox).

The development shallowly embeds the two algorithmic parts of the script:

* the vertebral-level mapper
  `get_slices_matching_with_vertebral_levels_based_centerline`
  (integer level arithmetic; fully computable here), and
* the per-slice CSA loop of `compute_csa` together with its aggregation
  stage (floating-point numerics, embedded over `ℝ`).

Python exceptions are modelled with `Except PipelineError`.  The distinct
vertebral level codes found in the labeling volume (the source builds
`np.array(list(set(...)))`) are modelled as a nonempty `Finset ℤ`; the
vectorized numpy operations on that array (`min`, `max`, boolean masking,
elementwise distances) become the corresponding `Finset` operations, which
are order-independent exactly like the source semantics.
-/

/-- Equality of `Except` values is decidable when it is on both sides;
needed to settle concrete runs of the embedded pipeline by `decide`. -/
instance {e : Type} {a : Type} [DecidableEq e] [DecidableEq a] : DecidableEq (Except e a) := fun x y =>
  match x, y with
  | .error u, .error v =>
    if h : u = v then .isTrue (by rw [h]) else .isFalse (fun hh => h (Except.error.inj hh))
  | .ok u, .ok v =>
    if h : u = v then .isTrue (by rw [h]) else .isFalse (fun hh => h (Except.ok.inj hh))
  | .error _, .ok _ => .isFalse (fun hh => Except.noConfusion hh)
  | .ok _, .error _ => .isFalse (fun hh => Except.noConfusion hh)

/-- Kinds of run-time failures of the pipeline.  The first five are the
Python exceptions the embedded code can actually raise; `emptyLevelRange`
is the typed error named by the specification (§7), which the code never
raises — it is included so that statements about the error taxonomy of the spec
can be expressed. -/
inductive PipelineError where
  | valueError : String → PipelineError
  | typeError : String → PipelineError
  | indexError : String → PipelineError
  | nameError : String → PipelineError
  | invalidRange : String → PipelineError
  | emptyLevelRange : PipelineError
deriving DecidableEq

/-- Message of `ValueError` raised by Python `min` on an empty sequence. -/
def valueErrMsg : String := "min arg is an empty sequence"

/-- Message of the `TypeError` raised by `int` on a numpy array that does
not have exactly one element. -/
def typeErrMsg : String := "only length-1 arrays can be converted to Python scalars"

/-- Message of the `IndexError` raised by indexing past the end of a list. -/
def indexErrMsg : String := "list index out of range"

/-- Message of the fatal `sct.printv` error for a malformed level range. -/
def rangeErrMsg : String := "vertebral levels not correct, enter format 1:4"

/-- Message of the `NameError` raised when `normal` is read before any
assignment to it succeeded. -/
def nameErrMsg : String := "name normal is not defined"

/-- Warning recorded when the requested bottom level is below the lowest
available level (source line 696). -/
def botClampMsg : String := "WARNING: bottom vertebral level lower than lowest available, selected the lowest available"

/-- Warning recorded when the requested top level is above the highest
available level (source line 704). -/
def topClampMsg : String := "WARNING: top vertebral level higher than highest available, selected the highest available"

/-- Warning recorded when the requested bottom level is absent from the
labeling (source line 718). -/
def botSnapMsg : String := "WARNING: bottom vertebral level not available, selected the nearest inferior level available"

/-- Warning recorded when the requested top level is absent from the
labeling (source line 730). -/
def topSnapMsg : String := "WARNING: top vertebral level not available, selected the nearest superior level available"

/-- Warning printed by `compute_csa` when the derivative lookup raises
`IndexError` (source line 479). -/
def discontinuityMsg : String := "WARNING: segmentation does not seem continuous"

/-- Source lines 676-685: split the level-range request, duplicate a single
level `n` into `n:n`, and reject requests with more than two components or
with start greater than end.  The input is the list of integers obtained
from `vertebral_levels.split` — an empty request reaches the comparison
`vert_levels_list[0] > vert_levels_list[1]` and dies with `IndexError`. -/
def levelsToRange (L : List ℤ) : Except PipelineError (ℤ × ℤ) :=
  let L2 := if L.length = 1 then L ++ L else L
  if 2 < L2.length then .error (.invalidRange rangeErrMsg)
  else
    match L2 with
    | a :: b :: _ => if a > b then .error (.invalidRange rangeErrMsg) else .ok (a, b)
    | _ => .error (.indexError indexErrMsg)

/-- Source lines 695-702: clamp the bottom level to the lowest available
level, recording a warning. -/
def clampLow (avail : Finset ℤ) (H : avail.Nonempty) (s : ℤ) : ℤ × List String :=
  if s < avail.min' H then (avail.min' H, [botClampMsg]) else (s, [])

/-- Source lines 703-711: clamp the top level to the highest available
level, recording a warning. -/
def clampHigh (avail : Finset ℤ) (H : avail.Nonempty) (e : ℤ) : ℤ × List String :=
  if avail.max' H < e then (avail.max' H, [topClampMsg]) else (e, [])

/-- Source lines 713-724: if the bottom level is not available, form the
relative distances `v - s`, take the minimum of the absolute values of the
negative ones (`min` of an empty numpy selection raises `ValueError`), and
select the available levels whose *signed* distance equals that positive
minimum; `int` of that selection raises `TypeError` when it is empty. -/
def snapLow (avail : Finset ℤ) (s : ℤ) : Except PipelineError (ℤ × List String) :=
  if s ∈ avail then .ok (s, [])
  else
    let neg := avail.filter (fun v => v - s < 0)
    if hneg : neg.Nonempty then
      let d := (neg.image (fun v => |v - s|)).min' (hneg.image _)
      let sel := avail.filter (fun v => v - s = d)
      if hsel : sel.Nonempty then .ok (sel.min' hsel, [botSnapMsg])
      else .error (.typeError typeErrMsg)
    else .error (.valueError valueErrMsg)

/-- Source lines 726-736: if the top level is not available, select the
available levels whose signed distance equals the minimum of the absolute
values of the positive distances. -/
def snapHigh (avail : Finset ℤ) (e : ℤ) : Except PipelineError (ℤ × List String) :=
  if e ∈ avail then .ok (e, [])
  else
    let pos := avail.filter (fun v => 0 < v - e)
    if hpos : pos.Nonempty then
      let d := (pos.image (fun v => |v - e|)).min' (hpos.image _)
      let sel := avail.filter (fun v => v - e = d)
      if hsel : sel.Nonempty then .ok (sel.min' hsel, [topSnapMsg])
      else .error (.typeError typeErrMsg)
    else .error (.valueError valueErrMsg)

/-- Source lines 687-736: resolve a requested level range against the
available levels — clamp both endpoints to the available bounds, then snap
endpoints that are still absent, accumulating the warnings in source
order. -/
def resolveLevels (avail : Finset ℤ) (H : avail.Nonempty) (s e : ℤ) :
    Except PipelineError (ℤ × ℤ × List String) :=
  let p1 := clampLow avail H s
  let p2 := clampHigh avail H e
  match snapLow avail p1.1 with
  | .error err => .error err
  | .ok (s2, w3) =>
    match snapHigh avail p2.1 with
    | .error err => .error err
    | .ok (e2, w4) => .ok (s2, e2, p1.2 ++ p2.2 ++ w3 ++ w4)

/-- Source lines 738-745: a centerline sample is kept when the level code
of the labeling volume at its (rounded) position lies in
`range(start, end + 1)`.  A sample is modelled as the pair of its slice
index and that level code. -/
def matchingSlices (samples : List (ℕ × ℤ)) (lo hi : ℤ) : List ℕ :=
  (samples.filter (fun p => decide (lo ≤ p.2 ∧ p.2 ≤ hi))).map Prod.fst

/-- Source lines 674-750, `get_slices_matching_with_vertebral_levels_based_centerline`:
parse the request, resolve it against the available levels, collect the
matching centerline slices, and return `min:max` of the matches together
with the resolved levels and the warnings.  `min` of an empty match list
raises `ValueError` (source line 748). -/
def get_slices_matching_with_vertebral_levels_based_centerline
    (avail : Finset ℤ) (H : avail.Nonempty) (samples : List (ℕ × ℤ)) (L : List ℤ) :
    Except PipelineError (ℕ × ℕ × ℤ × ℤ × List String) :=
  match levelsToRange L with
  | .error err => .error err
  | .ok (s, e) =>
    match resolveLevels avail H s e with
    | .error err => .error err
    | .ok (s2, e2, ws) =>
      let matching := matchingSlices samples s2 e2
      match matching.min?, matching.max? with
      | some a, some b => .ok (a, b, s2, e2, ws)
      | _, _ => .error (.valueError valueErrMsg)

/-- Source line 743 `normalize` (renamed: Mathlib already has `normalize`): divide a 3-vector by its euclidean norm
(`np.linalg.norm`). -/
noncomputable def normalizeVec (v : ℝ × ℝ × ℝ) : ℝ × ℝ × ℝ :=
  (v.1 / Real.sqrt (v.1 ^ 2 + v.2.1 ^ 2 + v.2.2 ^ 2),
   v.2.1 / Real.sqrt (v.1 ^ 2 + v.2.1 ^ 2 + v.2.2 ^ 2),
   v.2.2 / Real.sqrt (v.1 ^ 2 + v.2.1 ^ 2 + v.2.2 ^ 2))

/-- Source line 482: `angle = np.arccos(np.dot(normal, [0, 0, 1]))`. -/
noncomputable def sliceAngle (normal : ℝ × ℝ × ℝ) : ℝ :=
  Real.arccos (normal.1 * 0 + normal.2.1 * 0 + normal.2.2 * 1)

/-- Source line 487: CSA of one slice,
`number_voxels * px * py * np.cos(angle)` where `number_voxels` is
`np.sum(data_seg[:, :, iz])`. -/
noncomputable def csaSlice (number_voxels px py : ℝ) (normal : ℝ × ℝ × ℝ) : ℝ :=
  number_voxels * px * py * Real.cos (sliceAngle normal)

/-- Written from the spec (§4.2): normalize the tangent, take
θ = arccos of the dot product of the normalized tangent with the unit
principal-axis vector, and return voxel_count × pixel_area × cos θ. -/
noncomputable def csaSliceSpec (voxel_count pixel_area : ℝ) (tangent : ℝ × ℝ × ℝ) : ℝ :=
  voxel_count * pixel_area *
    Real.cos (Real.arccos ((normalizeVec tangent).1 * 0 + (normalizeVec tangent).2.1 * 0 +
      (normalizeVec tangent).2.2 * 1))

/-- Source lines 470-487, body of the CSA loop of `compute_csa`.  The
first argument of each step is the list of remaining loop indices
`k = iz - min_z_index`; the `Option` argument is the current value of the
Python variable `normal`: `none` before the first successful assignment.
A step looks up `deriv[k]`; on success `normal` is reassigned, on
`IndexError` a warning is printed and the *stale* `normal` is reused — if
`normal` was never assigned, reading it raises `NameError`.  Either way
the slice CSA is then computed from `normal`. -/
noncomputable def csaLoopAux (deriv : List (ℝ × ℝ × ℝ)) (sliceSum : ℕ → ℝ)
    (px py : ℝ) (minZ : ℕ) :
    List ℕ → Option (ℝ × ℝ × ℝ) → Except PipelineError (List ℝ × List String)
  | [], _ => .ok ([], [])
  | k :: ks, lastNormal =>
    match deriv.get? k with
    | some d =>
      match csaLoopAux deriv sliceSum px py minZ ks (some (normalizeVec d)) with
      | .error err => .error err
      | .ok (vs, ws) =>
        .ok (csaSlice (sliceSum (minZ + k)) px py (normalizeVec d) :: vs, ws)
    | none =>
      match lastNormal with
      | none => .error (.nameError nameErrMsg)
      | some n =>
        match csaLoopAux deriv sliceSum px py minZ ks (some n) with
        | .error err => .error err
        | .ok (vs, ws) =>
          .ok (csaSlice (sliceSum (minZ + k)) px py n :: vs, discontinuityMsg :: ws)

/-- Source lines 468-487: the full CSA loop,
`for iz in xrange(min_z_index, max_z_index + 1)`, starting with the
variable `normal` unassigned. -/
noncomputable def compute_csa_loop (deriv : List (ℝ × ℝ × ℝ)) (sliceSum : ℕ → ℝ)
    (minZ maxZ : ℕ) (px py : ℝ) : Except PipelineError (List ℝ × List String) :=
  csaLoopAux deriv sliceSum px py minZ (List.range (maxZ + 1 - minZ)) none

/-- Modelled from the spec: `msct_smooth.smoothing_window` is not under
`src`; the spec (§4.1) describes it as convolution of the sequence with a
normalized symmetric window of the configured length, with truncation at
the sequence boundaries.  Out-of-range neighbours contribute zero. -/
noncomputable def smoothing_window (w : List ℝ) (xs : List ℝ) : List ℝ :=
  (List.range xs.length).map (fun i =>
    ((List.range w.length).map (fun j =>
      (w.getD j 0 / w.sum) * xs.getD (i + j - (w.length - 1) / 2) 0)).sum)

/-- Source lines 490-508: the CSA smoothing stage dispatch,
`if smoothing_param: csa = smoothing_window(csa, ...) else: no smoothing`.
The Hanning window contents are received as an argument; only the
dispatch on `smoothing_param` (Python truthiness: zero is falsy) is
relevant here. -/
noncomputable def smoothCSAStage (w : List ℝ) (smoothing_param : ℝ) (csa : List ℝ) : List ℝ :=
  if smoothing_param ≠ 0 then smoothing_window w csa else csa

/-- Source line 587: `slices_list = range(int(slices_lim[0]), int(slices_lim[1]) + 1)`. -/
def slicesList (a b : ℕ) : List ℕ :=
  List.range' a (b + 1 - a)

/-- Source lines 589-595: the CSA values re-read from the per-slice file
whose line index lies in `slices_list`.  The file is modelled as the list
of its `(index, value)` lines. -/
def selectedCSA (csaFile : List (ℕ × ℝ)) (a b : ℕ) : List ℝ :=
  (csaFile.filter (fun p => decide (p.1 ∈ slicesList a b))).map Prod.snd

/-- `np.mean`: sum divided by length. -/
noncomputable def np_mean (xs : List ℝ) : ℝ :=
  xs.sum / xs.length

/-- `np.std` with its default `ddof=0`: square root of the mean of the
squared deviations (population standard deviation, denominator N). -/
noncomputable def np_std (xs : List ℝ) : ℝ :=
  Real.sqrt ((xs.map (fun x => (x - np_mean xs) ^ 2)).sum / xs.length)

/-- Source lines 597-613: the aggregation stage — `np.mean` and `np.std`
of the selected CSA values, and
`volume = np.sum(data_seg[:, :, slices_list]) * px * py * pz` where the
per-slice segmentation sums are given by `segSum`. -/
noncomputable def aggregateCSA (csaFile : List (ℕ × ℝ)) (segSum : ℕ → ℝ)
    (px py pz : ℝ) (a b : ℕ) : ℝ × ℝ × ℝ :=
  (np_mean (selectedCSA csaFile a b),
   np_std (selectedCSA csaFile a b),
   ((slicesList a b).map segSum).sum * px * py * pz)

/-- Written from the spec (§4.4): the arithmetic mean. -/
noncomputable def specMean (xs : List ℝ) : ℝ :=
  xs.sum / xs.length

/-- Written from the spec (§4.4): the sample standard deviation with the
N-1 denominator. -/
noncomputable def specSampleStd (xs : List ℝ) : ℝ :=
  Real.sqrt ((xs.map (fun x => (x - specMean xs) ^ 2)).sum / ((xs.length : ℝ) - 1))

/-- The population standard deviation (denominator N) — what the code
actually computes (the amended form of the spec sentence). -/
noncomputable def specPopStd (xs : List ℝ) : ℝ :=
  Real.sqrt ((xs.map (fun x => (x - specMean xs) ^ 2)).sum / xs.length)

/-- Written from the spec (§4.4): total volume =
(voxel count in range) × voxel_x × voxel_y × voxel_z. -/
noncomputable def specVolume (segSum : ℕ → ℝ) (vx vy vz : ℝ) (slices : List ℕ) : ℝ :=
  ((slices.map segSum).sum) * vx * vy * vz

/-- The value of the Python variable `normal` after the CSA loop has
processed the given indices: every successful derivative lookup overwrites
it, and a failed lookup leaves it unchanged — but since the loop indices
are visited in increasing order, any index with a successful lookup
overwrites it, so the fold below (which overwrites at every index, using
the total lookup `getD`) agrees with the loop state on index lists whose
members all look up successfully. -/
noncomputable def stateAfter (deriv : List (ℝ × ℝ × ℝ)) (ks : List ℕ)
    (init : Option (ℝ × ℝ × ℝ)) : Option (ℝ × ℝ × ℝ) :=
  ks.foldl (fun _ k => some (normalizeVec (deriv.getD k (0, 0, 0)))) init

/-- A successful lower snap returns an available level. -/
lemma snapLow_mem {avail : Finset ℤ} {s x : ℤ} {w : List String}
    (h : snapLow avail s = .ok (x, w)) : x ∈ avail := by
  by_cases hs : s ∈ avail
  · simp only [snapLow, if_pos hs, Except.ok.injEq, Prod.mk.injEq] at h
    exact h.1 ▸ hs
  · simp only [snapLow, if_neg hs] at h
    split at h
    · split at h
      · simp only [Except.ok.injEq, Prod.mk.injEq] at h
        rename_i hsel
        exact h.1 ▸ (Finset.mem_filter.1 (Finset.min'_mem _ hsel)).1
      · cases h
    · cases h

/-- A successful upper snap returns an available level. -/
lemma snapHigh_mem {avail : Finset ℤ} {e x : ℤ} {w : List String}
    (h : snapHigh avail e = .ok (x, w)) : x ∈ avail := by
  by_cases he : e ∈ avail
  · simp only [snapHigh, if_pos he, Except.ok.injEq, Prod.mk.injEq] at h
    exact h.1 ▸ he
  · simp only [snapHigh, if_neg he] at h
    split at h
    · split at h
      · simp only [Except.ok.injEq, Prod.mk.injEq] at h
        rename_i hsel
        exact h.1 ▸ (Finset.mem_filter.1 (Finset.min'_mem _ hsel)).1
      · cases h
    · cases h

/-- Snapping an endpoint that is already available is the identity and
records no warning. -/
lemma snapLow_of_mem {avail : Finset ℤ} {s : ℤ} (hs : s ∈ avail) :
    snapLow avail s = .ok (s, []) := by
  simp [snapLow, hs]

/-- Snapping an endpoint that is already available is the identity and
records no warning. -/
lemma snapHigh_of_mem {avail : Finset ℤ} {e : ℤ} (he : e ∈ avail) :
    snapHigh avail e = .ok (e, []) := by
  simp [snapHigh, he]

/-- A successfully resolved range consists of available levels. -/
lemma resolveLevels_mem {avail : Finset ℤ} {H : avail.Nonempty} {s e s2 e2 : ℤ}
    {ws : List String} (h : resolveLevels avail H s e = .ok (s2, e2, ws)) :
    s2 ∈ avail ∧ e2 ∈ avail := by
  simp only [resolveLevels] at h
  cases hsl : snapLow avail (clampLow avail H s).1 with
  | error err => rw [hsl] at h; cases h
  | ok p =>
    cases hsh : snapHigh avail (clampHigh avail H e).1 with
    | error err => rw [hsl, hsh] at h; cases h
    | ok q =>
      rw [hsl, hsh] at h
      simp only [Except.ok.injEq, Prod.mk.injEq] at h
      obtain ⟨h1, h2, -⟩ := h
      obtain ⟨p1, p2⟩ := p
      obtain ⟨q1, q2⟩ := q
      exact ⟨h1 ▸ snapLow_mem hsl, h2 ▸ snapHigh_mem hsh⟩

/-- Resolving a range whose endpoints are both available is the identity
and records no warning. -/
lemma resolveLevels_of_mem {avail : Finset ℤ} (H : avail.Nonempty) {s e : ℤ}
    (hs : s ∈ avail) (he : e ∈ avail) : resolveLevels avail H s e = .ok (s, e, []) := by
  have h1 : ¬ s < avail.min' H := not_lt.2 (avail.min'_le s hs)
  have h2 : ¬ avail.max' H < e := not_lt.2 (avail.le_max' e he)
  simp [resolveLevels, clampLow, clampHigh, h1, h2, snapLow_of_mem hs, snapHigh_of_mem he]

/-- A nonempty slice match forces the resolved range to be nonempty. -/
lemma matchingSlices_le {samples : List (ℕ × ℤ)} {lo hi : ℤ}
    (h : matchingSlices samples lo hi ≠ []) : lo ≤ hi := by
  obtain ⟨z, hz⟩ := List.exists_mem_of_ne_nil _ h
  simp only [matchingSlices, List.mem_map, List.mem_filter, decide_eq_true_eq] at hz
  obtain ⟨p, ⟨-, hp1, hp2⟩, -⟩ := hz
  exact le_trans hp1 hp2

/-- C4 (counterexample): with the single available level 3 and one
centerline sample whose level code 99 matches nothing, the mapper fails
with the untyped Python `ValueError` raised by `min` on an empty sequence,
not with the typed `EmptyLevelRangeError` the claim names. -/
theorem csa_C4_counterexample :
    get_slices_matching_with_vertebral_levels_based_centerline
      {3} ⟨3, by decide⟩ [(0, 99)] [3, 3] = .error (.valueError valueErrMsg) ∧
    PipelineError.valueError valueErrMsg ≠ PipelineError.emptyLevelRange := by
  decide

/-- C4 (amended): when the resolution of the requested range succeeds, the
mapper fails with the untyped `ValueError` of `min` on an empty sequence
precisely when no centerline sample maps into the resolved range, and
otherwise returns the range from the minimum to the maximum included slice
index. -/
theorem csa_C4_amended (avail : Finset ℤ) (H : avail.Nonempty)
    (samples : List (ℕ × ℤ)) (s e s2 e2 : ℤ) (ws : List String) (hse : s ≤ e)
    (hres : resolveLevels avail H s e = .ok (s2, e2, ws)) :
    (matchingSlices samples s2 e2 = [] →
      get_slices_matching_with_vertebral_levels_based_centerline avail H samples [s, e]
        = .error (.valueError valueErrMsg)) ∧
    (∀ a b : ℕ, (matchingSlices samples s2 e2).min? = some a →
      (matchingSlices samples s2 e2).max? = some b →
      get_slices_matching_with_vertebral_levels_based_centerline avail H samples [s, e]
        = .ok (a, b, s2, e2, ws)) := by
  have hparse : levelsToRange [s, e] = .ok (s, e) := by
    simp only [levelsToRange, List.length_cons, List.length_nil]
    norm_num
    intro hlt
    exact absurd hlt (not_lt.2 hse)
  constructor
  · intro hnil
    simp only [get_slices_matching_with_vertebral_levels_based_centerline, hparse, hres, hnil]
    rfl
  · intro a b hmin hmax
    simp only [get_slices_matching_with_vertebral_levels_based_centerline, hparse, hres,
      hmin, hmax]

/-- C6 (counterexample): with available levels 3..9, requesting the range
15:20 does not clamp the bottom endpoint to the highest boundary — the
lower-bound snap selects an empty set of levels and the run dies with a
`TypeError`, so the claimed general clamping rule fails for a start above
the highest available level. -/
theorem csa_C6_counterexample :
    resolveLevels {3, 4, 5, 6, 7, 8, 9} ⟨3, by decide⟩ 15 20
      = .error (.typeError typeErrMsg) := by
  decide

/-- C6 (amended): requesting levels 1:20 when only 3..9 are available
resolves to 3..9 with exactly two recorded warnings; in general a start
below the lowest available level is clamped to it with one warning and an
end above the highest available level is clamped to it with one warning
(an endpoint outside on the opposite side instead reaches the lower-bound
snap, which fails). -/
theorem csa_C6_amended (avail : Finset ℤ) (H : avail.Nonempty) (s e : ℤ) :
    (resolveLevels {3, 4, 5, 6, 7, 8, 9} ⟨3, by decide⟩ 1 20
      = .ok (3, 9, [botClampMsg, topClampMsg])) ∧
    (s < avail.min' H → avail.max' H < e →
      resolveLevels avail H s e
        = .ok (avail.min' H, avail.max' H, [botClampMsg, topClampMsg])) ∧
    (s < avail.min' H → e ≤ avail.max' H → e ∈ avail →
      resolveLevels avail H s e = .ok (avail.min' H, e, [botClampMsg])) ∧
    (s ∈ avail → avail.max' H < e →
      resolveLevels avail H s e = .ok (s, avail.max' H, [topClampMsg])) := by
  refine ⟨by decide, ?_, ?_, ?_⟩
  · intro h1 h2
    have hc1 : clampLow avail H s = (avail.min' H, [botClampMsg]) := by
      rw [clampLow, if_pos h1]
    have hc2 : clampHigh avail H e = (avail.max' H, [topClampMsg]) := by
      rw [clampHigh, if_pos h2]
    simp only [resolveLevels, hc1, hc2, snapLow_of_mem (avail.min'_mem H),
      snapHigh_of_mem (avail.max'_mem H)]
    simp
  · intro h1 h2 he
    have hc1 : clampLow avail H s = (avail.min' H, [botClampMsg]) := by
      rw [clampLow, if_pos h1]
    have hc2 : clampHigh avail H e = (e, []) := by
      rw [clampHigh, if_neg (not_lt.2 h2)]
    simp only [resolveLevels, hc1, hc2, snapLow_of_mem (avail.min'_mem H),
      snapHigh_of_mem he]
    simp
  · intro hs h2
    have hc1 : clampLow avail H s = (s, []) := by
      rw [clampLow, if_neg (not_lt.2 (avail.min'_le s hs))]
    have hc2 : clampHigh avail H e = (avail.max' H, [topClampMsg]) := by
      rw [clampHigh, if_pos h2]
    simp only [resolveLevels, hc1, hc2, snapLow_of_mem hs,
      snapHigh_of_mem (avail.max'_mem H)]
    simp

/-- C6 (witness): the general clamping clause applied to available levels
4 and 6 with request 1:9. -/
theorem csa_C6_amended_witness :
    resolveLevels {4, 6} ⟨4, by decide⟩ 1 9 = .ok (4, 6, [botClampMsg, topClampMsg]) := by
  have h := (csa_C6_amended {4, 6} ⟨4, by decide⟩ 1 9).2.1 (by decide) (by decide)
  rw [h]
  decide

/-- C7: evaluation of the lower-bound snap at available levels
3, 4, 6, 8, 9 with request 5:8 — the code resolves the bottom level to 6,
a level *above* the request, while the nearest inferior available level,
required by the claim and by the warning message the code itself records,
is 4. -/
theorem csa_C7_snap_bug :
    resolveLevels {3, 4, 6, 8, 9} ⟨3, by decide⟩ 5 8 = .ok (6, 8, [botSnapMsg]) ∧
    (4 : ℤ) ∈ ({3, 4, 6, 8, 9} : Finset ℤ) ∧ (4 : ℤ) < 5 ∧
    (∀ v ∈ ({3, 4, 6, 8, 9} : Finset ℤ), v < 5 → v ≤ 4) := by
  decide

/-- C8: the vertebral-level mapper is idempotent on its own output — if a
run returns resolved levels (s2, e2) with slice range (a, b), running the
mapper again on the request s2:e2 returns the same slice range and the
same resolved levels with zero warnings. -/
theorem csa_C8 (avail : Finset ℤ) (H : avail.Nonempty) (samples : List (ℕ × ℤ))
    (L : List ℤ) (a b : ℕ) (s2 e2 : ℤ) (ws : List String)
    (h : get_slices_matching_with_vertebral_levels_based_centerline avail H samples L
      = .ok (a, b, s2, e2, ws)) :
    get_slices_matching_with_vertebral_levels_based_centerline avail H samples [s2, e2]
      = .ok (a, b, s2, e2, []) := by
  simp only [get_slices_matching_with_vertebral_levels_based_centerline] at h
  cases hparse : levelsToRange L with
  | error err => rw [hparse] at h; cases h
  | ok p =>
    obtain ⟨s, e⟩ := p
    rw [hparse] at h
    simp only at h
    cases hres : resolveLevels avail H s e with
    | error err => rw [hres] at h; cases h
    | ok q =>
      obtain ⟨s2', e2', ws'⟩ := q
      rw [hres] at h
      simp only at h
      cases hmin : (matchingSlices samples s2' e2').min? with
      | none => rw [hmin] at h; cases h
      | some a' =>
        cases hmax : (matchingSlices samples s2' e2').max? with
        | none => rw [hmin, hmax] at h; cases h
        | some b' =>
          rw [hmin, hmax] at h
          simp only [Except.ok.injEq, Prod.mk.injEq] at h
          obtain ⟨ha, hb, hs2, he2, hws⟩ := h
          subst ha hb hs2 he2
          have hmem := resolveLevels_mem hres
          have hne : matchingSlices samples s2' e2' ≠ [] := by
            intro hnil
            rw [hnil] at hmin
            cases hmin
          have hle : s2' ≤ e2' := matchingSlices_le hne
          have hparse2 : levelsToRange [s2', e2'] = .ok (s2', e2') := by
            simp only [levelsToRange, List.length_cons, List.length_nil]
            norm_num
            intro hlt
            exact absurd hlt (not_lt.2 hle)
          simp only [get_slices_matching_with_vertebral_levels_based_centerline, hparse2,
            resolveLevels_of_mem H hmem.1 hmem.2, hmin, hmax]

/-- C8 (witness): a concrete run with available levels 3, 4, 5 —
requesting 1:9 resolves (with two clamping warnings) to 3:5 and slices
10:12, and re-running on 3:5 reproduces the output with no warnings. -/
theorem csa_C8_witness :
    get_slices_matching_with_vertebral_levels_based_centerline
      {3, 4, 5} ⟨3, by decide⟩ [(10, 3), (11, 4), (12, 5)] [3, 5]
      = .ok (10, 12, 3, 5, []) :=
  csa_C8 {3, 4, 5} ⟨3, by decide⟩ [(10, 3), (11, 4), (12, 5)] [1, 9]
    10 12 3 5 [botClampMsg, topClampMsg] (by decide)

/-- C10: a single-level request n is treated as the degenerate range n:n;
requests with more than two components, or with start above end, are
rejected; and the slices matching the degenerate range n:n are exactly
the samples whose level code is n. -/
theorem csa_C10 :
    (∀ n : ℤ, levelsToRange [n] = .ok (n, n)) ∧
    (∀ L : List ℤ, 2 < L.length → levelsToRange L = .error (.invalidRange rangeErrMsg)) ∧
    (∀ a b : ℤ, a > b → levelsToRange [a, b] = .error (.invalidRange rangeErrMsg)) ∧
    (∀ (samples : List (ℕ × ℤ)) (n : ℤ),
      matchingSlices samples n n = (samples.filter (fun p => decide (p.2 = n))).map Prod.fst) := by
  refine ⟨?_, ?_, ?_, ?_⟩
  · intro n
    simp [levelsToRange]
  · intro L hL
    have h1 : L.length ≠ 1 := by omega
    simp [levelsToRange, h1, hL]
  · intro a b hab
    simp [levelsToRange, hab]
  · intro samples n
    unfold matchingSlices
    congr 1
    apply List.filter_congr
    intro x _
    simp only [decide_eq_decide]
    omega

/-- C10 (witness): the request 4 selects exactly the slices of level 4. -/
theorem csa_C10_witness :
    levelsToRange [(4 : ℤ)] = .ok (4, 4) ∧
    levelsToRange [(1 : ℤ), 2, 3] = .error (.invalidRange rangeErrMsg) ∧
    levelsToRange [(5 : ℤ), 2] = .error (.invalidRange rangeErrMsg) ∧
    matchingSlices [(0, 4), (1, 5)] 4 4 = [0] := by
  refine ⟨csa_C10.1 4, csa_C10.2.1 [1, 2, 3] (by decide), csa_C10.2.2.1 5 2 (by decide), ?_⟩
  rw [csa_C10.2.2.2 [(0, 4), (1, 5)] 4]
  decide

/-- C4 (witness): with the single available level 3 and one sample of
level 3 at slice 7, the mapper returns the range 7:7. -/
theorem csa_C4_amended_witness :
    get_slices_matching_with_vertebral_levels_based_centerline
      {3} ⟨3, by decide⟩ [(7, 3)] [3, 3] = .ok (7, 7, 3, 3, []) :=
  (csa_C4_amended {3} ⟨3, by decide⟩ [(7, 3)] 3 3 3 3 [] (by decide) (by decide)).2
    7 7 (by decide) (by decide)

/-- Looking up a valid index with `get?` succeeds and agrees with `getD`. -/
lemma get?_eq_getD {α : Type} (d : α) (l : List α) : ∀ k, k < l.length →
    l.get? k = some (l.getD k d) := by
  induction l with
  | nil => intro k h; simp at h
  | cons a l ih =>
    intro k h
    cases k with
    | zero => rfl
    | succ k => exact ih k (by simpa using h)

/-- Looking up an out-of-range index with `get?` fails. -/
lemma get?_eq_none_of_le {α : Type} (l : List α) : ∀ k, l.length ≤ k → l.get? k = none := by
  induction l with
  | nil => intro k _; rfl
  | cons a l ih =>
    intro k h
    cases k with
    | zero => simp at h
    | succ k => exact ih k (by simpa using h)

/-- CSA loop on indices that all look up successfully: every slice gets the
normal of its own derivative and no warning is printed. -/
lemma csaLoopAux_all_good (deriv : List (ℝ × ℝ × ℝ)) (sliceSum : ℕ → ℝ)
    (px py : ℝ) (minZ : ℕ) : ∀ (ks : List ℕ) (init : Option (ℝ × ℝ × ℝ)),
    (∀ k ∈ ks, k < deriv.length) →
    csaLoopAux deriv sliceSum px py minZ ks init =
      .ok (ks.map (fun k => csaSlice (sliceSum (minZ + k)) px py
        (normalizeVec (deriv.getD k (0, 0, 0)))), []) := by
  intro ks
  induction ks with
  | nil => intro init _; rfl
  | cons k ks ih =>
    intro init hall
    have hget : deriv.get? k = some (deriv.getD k (0, 0, 0)) :=
      get?_eq_getD _ _ _ (hall k (by simp))
    simp only [csaLoopAux, hget, ih (some (normalizeVec (deriv.getD k (0, 0, 0))))
      (fun x hx => hall x (by simp [hx])), List.map_cons]

/-- CSA loop on indices that all fail to look up, starting from an
assigned `normal`: every slice reuses that stale normal and prints the
discontinuity warning. -/
lemma csaLoopAux_all_bad (deriv : List (ℝ × ℝ × ℝ)) (sliceSum : ℕ → ℝ)
    (px py : ℝ) (minZ : ℕ) (n : ℝ × ℝ × ℝ) : ∀ ks : List ℕ,
    (∀ k ∈ ks, deriv.length ≤ k) →
    csaLoopAux deriv sliceSum px py minZ ks (some n) =
      .ok (ks.map (fun k => csaSlice (sliceSum (minZ + k)) px py n),
           ks.map (fun _ => discontinuityMsg)) := by
  intro ks
  induction ks with
  | nil => intro _; rfl
  | cons k ks ih =>
    intro hall
    have hget : deriv.get? k = none := get?_eq_none_of_le _ _ (hall k (by simp))
    simp only [csaLoopAux, hget, ih (fun x hx => hall x (by simp [hx])), List.map_cons]

/-- Splitting the CSA loop at a prefix of successful lookups. -/
lemma csaLoopAux_append (deriv : List (ℝ × ℝ × ℝ)) (sliceSum : ℕ → ℝ)
    (px py : ℝ) (minZ : ℕ) : ∀ (ks₁ ks₂ : List ℕ) (init : Option (ℝ × ℝ × ℝ)),
    (∀ k ∈ ks₁, k < deriv.length) →
    csaLoopAux deriv sliceSum px py minZ (ks₁ ++ ks₂) init =
      match csaLoopAux deriv sliceSum px py minZ ks₂ (stateAfter deriv ks₁ init) with
      | .error err => .error err
      | .ok (vs, ws) =>
        .ok (ks₁.map (fun k => csaSlice (sliceSum (minZ + k)) px py
          (normalizeVec (deriv.getD k (0, 0, 0)))) ++ vs, ws) := by
  intro ks₁
  induction ks₁ with
  | nil =>
    intro ks₂ init _
    simp only [List.nil_append, List.map_nil, stateAfter, List.foldl_nil]
    cases csaLoopAux deriv sliceSum px py minZ ks₂ init with
    | error err => rfl
    | ok p => obtain ⟨vs, ws⟩ := p; simp
  | cons k ks ih =>
    intro ks₂ init hall
    have hget : deriv.get? k = some (deriv.getD k (0, 0, 0)) :=
      get?_eq_getD _ _ _ (hall k (by simp))
    have hih := ih ks₂ (some (normalizeVec (deriv.getD k (0, 0, 0))))
      (fun x hx => hall x (by simp [hx]))
    have hstate : stateAfter deriv (k :: ks) init
        = stateAfter deriv ks (some (normalizeVec (deriv.getD k (0, 0, 0)))) := by
      simp [stateAfter]
    rw [hstate]
    simp only [List.cons_append, csaLoopAux, hget]
    simp only [List.append_eq] at hih ⊢
    rw [hih]
    cases csaLoopAux deriv sliceSum px py minZ ks₂
        (stateAfter deriv ks (some (normalizeVec (deriv.getD k (0, 0, 0))))) with
    | error err => rfl
    | ok p => obtain ⟨vs, ws⟩ := p; simp

/-- Full characterization of the CSA loop when the derivative sequence is
nonempty but too short for the slice range: the slices with a valid
derivative use their own tangent, the remaining slices silently reuse the
last computed normal, one discontinuity warning per failing slice. -/
lemma compute_csa_loop_char (deriv : List (ℝ × ℝ × ℝ)) (sliceSum : ℕ → ℝ)
    (minZ maxZ : ℕ) (px py : ℝ) (hne : deriv ≠ [])
    (hm : deriv.length ≤ maxZ + 1 - minZ) :
    compute_csa_loop deriv sliceSum minZ maxZ px py =
      .ok ((List.range deriv.length).map (fun k => csaSlice (sliceSum (minZ + k)) px py
              (normalizeVec (deriv.getD k (0, 0, 0))))
           ++ (List.range (maxZ + 1 - minZ - deriv.length)).map (fun j =>
              csaSlice (sliceSum (minZ + (deriv.length + j))) px py
                (normalizeVec (deriv.getD (deriv.length - 1) (0, 0, 0)))),
           (List.range (maxZ + 1 - minZ - deriv.length)).map (fun _ => discontinuityMsg)) := by
  have hlen : deriv.length - 1 + 1 = deriv.length := by
    have := List.length_pos.2 hne
    omega
  have hrange : List.range (maxZ + 1 - minZ)
      = List.range deriv.length ++ (List.range (maxZ + 1 - minZ - deriv.length)).map
          (fun j => deriv.length + j) := by
    rw [← List.range_add]
    congr 1
    omega
  have hsplit : List.range deriv.length
      = List.range (deriv.length - 1) ++ [deriv.length - 1] := by
    have h := List.range_succ (n := deriv.length - 1)
    rw [Nat.succ_eq_add_one, hlen] at h
    exact h
  have hstate : stateAfter deriv (List.range deriv.length) none
      = some (normalizeVec (deriv.getD (deriv.length - 1) (0, 0, 0))) := by
    rw [hsplit]
    simp [stateAfter, List.foldl_append]
  have hbad := csaLoopAux_all_bad deriv sliceSum px py minZ
    (normalizeVec (deriv.getD (deriv.length - 1) (0, 0, 0)))
    ((List.range (maxZ + 1 - minZ - deriv.length)).map (fun j => deriv.length + j))
    (by
      intro x hx
      simp only [List.mem_map] at hx
      obtain ⟨j, -, rfl⟩ := hx
      omega)
  unfold compute_csa_loop
  rw [hrange, csaLoopAux_append deriv sliceSum px py minZ _ _ none
    (by intro x hx; simpa using List.mem_range.1 (by simpa using hx)), hstate, hbad]
  simp only [List.map_map]
  rfl

/-- The axis component of a normalized vector with nonnegative axis
component lies in [0, 1]. -/
lemma normalizeVec_z_mem {v : ℝ × ℝ × ℝ} (hz : 0 ≤ v.2.2) :
    0 ≤ (normalizeVec v).2.2 ∧ (normalizeVec v).2.2 ≤ 1 := by
  unfold normalizeVec
  dsimp only
  have hr0 : 0 ≤ Real.sqrt (v.1 ^ 2 + v.2.1 ^ 2 + v.2.2 ^ 2) := Real.sqrt_nonneg _
  have hzr : v.2.2 ≤ Real.sqrt (v.1 ^ 2 + v.2.1 ^ 2 + v.2.2 ^ 2) := by
    calc v.2.2 = Real.sqrt (v.2.2 ^ 2) := (Real.sqrt_sq hz).symm
    _ ≤ Real.sqrt (v.1 ^ 2 + v.2.1 ^ 2 + v.2.2 ^ 2) :=
      Real.sqrt_le_sqrt (by nlinarith [sq_nonneg v.1, sq_nonneg v.2.1])
  refine ⟨div_nonneg hz hr0, ?_⟩
  rcases eq_or_lt_of_le hr0 with h0 | h0
  · rw [← h0, div_zero]
    norm_num
  · exact div_le_one_of_le hzr hr0

/-- The axis component of a normalized vector is never below -1. -/
lemma normalizeVec_z_lb (v : ℝ × ℝ × ℝ) : -1 ≤ (normalizeVec v).2.2 := by
  unfold normalizeVec
  dsimp only
  have hr0 : 0 ≤ Real.sqrt (v.1 ^ 2 + v.2.1 ^ 2 + v.2.2 ^ 2) := Real.sqrt_nonneg _
  have habs : |v.2.2| ≤ Real.sqrt (v.1 ^ 2 + v.2.1 ^ 2 + v.2.2 ^ 2) := by
    calc |v.2.2| = Real.sqrt (v.2.2 ^ 2) := (Real.sqrt_sq_eq_abs _).symm
    _ ≤ Real.sqrt (v.1 ^ 2 + v.2.1 ^ 2 + v.2.2 ^ 2) :=
      Real.sqrt_le_sqrt (by nlinarith [sq_nonneg v.1, sq_nonneg v.2.1])
  rcases eq_or_lt_of_le hr0 with h0 | h0
  · rw [← h0, div_zero]
    norm_num
  · rw [neg_le, ← neg_div]
    apply div_le_one_of_le _ hr0
    calc -v.2.2 ≤ |v.2.2| := neg_le_abs _
    _ ≤ _ := habs

/-- C1 (amended): the cosine factor applied by the CSA loop equals the
axis component of the normalized tangent; whenever that axis component is
nonnegative the factor lies in [0, 1] and the slice CSA is nonnegative.
The code performs no clamping, so the sign assumption is genuinely needed
(see the counterexample). -/
theorem csa_C1_amended (v : ℝ × ℝ × ℝ) (hz : 0 ≤ v.2.2)
    (nv px py : ℝ) (hn : 0 ≤ nv) (hpx : 0 ≤ px) (hpy : 0 ≤ py) :
    0 ≤ Real.cos (sliceAngle (normalizeVec v)) ∧
    Real.cos (sliceAngle (normalizeVec v)) ≤ 1 ∧
    0 ≤ csaSlice nv px py (normalizeVec v) := by
  obtain ⟨h0, h1⟩ := normalizeVec_z_mem hz
  have hcos : Real.cos (sliceAngle (normalizeVec v)) = (normalizeVec v).2.2 := by
    rw [sliceAngle, show (normalizeVec v).1 * 0 + (normalizeVec v).2.1 * 0
        + (normalizeVec v).2.2 * 1 = (normalizeVec v).2.2 by ring]
    exact Real.cos_arccos (by linarith) h1
  refine ⟨hcos ▸ h0, hcos ▸ h1, ?_⟩
  unfold csaSlice
  rw [hcos]
  exact mul_nonneg (mul_nonneg (mul_nonneg hn hpx) hpy) h0

/-- C1 (witness): the guarantee at tangent (0, 0, 2) with unit voxel data. -/
theorem csa_C1_amended_witness :
    0 ≤ Real.cos (sliceAngle (normalizeVec ((0 : ℝ), (0 : ℝ), (2 : ℝ)))) ∧
    Real.cos (sliceAngle (normalizeVec ((0 : ℝ), (0 : ℝ), (2 : ℝ)))) ≤ 1 ∧
    0 ≤ csaSlice 1 1 1 (normalizeVec ((0 : ℝ), (0 : ℝ), (2 : ℝ))) :=
  csa_C1_amended (0, 0, 2) (by norm_num) 1 1 1 (by norm_num) (by norm_num) (by norm_num)

/-- C1 (counterexample): for the fitted tangent (0, 0, -1) — axis
component negative — the cosine factor is -1, outside [0, 1], and the
stored CSA of a slice with one voxel and unit pixel size is -1 < 0. -/
theorem csa_C1_counterexample :
    csaSlice 1 1 1 (normalizeVec ((0 : ℝ), (0 : ℝ), (-1 : ℝ))) = -1 ∧
    Real.cos (sliceAngle (normalizeVec ((0 : ℝ), (0 : ℝ), (-1 : ℝ)))) < 0 := by
  have hs : Real.sqrt ((0 : ℝ) ^ 2 + (0 : ℝ) ^ 2 + (-1 : ℝ) ^ 2) = 1 := by
    rw [show (0 : ℝ) ^ 2 + (0 : ℝ) ^ 2 + (-1 : ℝ) ^ 2 = 1 by norm_num, Real.sqrt_one]
  have hn : normalizeVec ((0 : ℝ), (0 : ℝ), (-1 : ℝ)) = (0, 0, -1) := by
    unfold normalizeVec
    rw [hs]
    norm_num
  have hcos : Real.cos (sliceAngle ((0 : ℝ), (0 : ℝ), (-1 : ℝ))) = -1 := by
    unfold sliceAngle
    rw [show (0 : ℝ) * 0 + (0 : ℝ) * 0 + (-1 : ℝ) * 1 = -1 by norm_num,
      Real.arccos_neg_one, Real.cos_pi]
  constructor
  · unfold csaSlice
    rw [hn, hcos]
    norm_num
  · rw [hn, hcos]
    norm_num

/-- The per-slice CSA formula of the code coincides with the formula written in
the spec: voxel count times pixel area times the cosine of the arccosine
of the dot product of the normalized tangent with the unit axis vector. -/
lemma csaSlice_eq_spec (a px py : ℝ) (t : ℝ × ℝ × ℝ) :
    csaSlice a px py (normalizeVec t) = csaSliceSpec a (px * py) t := by
  unfold csaSlice csaSliceSpec sliceAngle
  ring

/-- C2: for every loop index with a defined tangent, the CSA array entry
produced by the loop equals the spec formula
voxel_sum × (px·py) × cos(arccos(normalized tangent ⬝ [0,0,1])). -/
theorem csa_C2 (deriv : List (ℝ × ℝ × ℝ)) (sliceSum : ℕ → ℝ) (minZ maxZ : ℕ)
    (px py : ℝ) (k : ℕ) (hk : k < maxZ + 1 - minZ) (hkd : k < deriv.length) :
    ∃ vs ws, compute_csa_loop deriv sliceSum minZ maxZ px py = .ok (vs, ws) ∧
      vs.get? k = some (csaSliceSpec (sliceSum (minZ + k)) (px * py)
        (deriv.getD k (0, 0, 0))) := by
  have hne : deriv ≠ [] := by
    intro h
    rw [h] at hkd
    simp at hkd
  by_cases hm : maxZ + 1 - minZ ≤ deriv.length
  · have h := csaLoopAux_all_good deriv sliceSum px py minZ
      (List.range (maxZ + 1 - minZ)) none
      (fun x hx => lt_of_lt_of_le (List.mem_range.1 hx) hm)
    refine ⟨_, _, h, ?_⟩
    rw [List.get?_map, List.get?_range hk]
    simp [csaSlice_eq_spec]
  · have h := compute_csa_loop_char deriv sliceSum minZ maxZ px py hne (by omega)
    refine ⟨_, _, h, ?_⟩
    rw [List.get?_append (by simpa using hkd), List.get?_map, List.get?_range hkd]
    simp [csaSlice_eq_spec]

/-- C2 (witness): one slice, tangent (0, 0, 2), three voxels, pixel size
2 × 7. -/
theorem csa_C2_witness :
    ∃ vs ws, compute_csa_loop [((0 : ℝ), (0 : ℝ), (2 : ℝ))] (fun _ => 3) 0 0 2 7
        = .ok (vs, ws) ∧
      vs.get? 0 = some (csaSliceSpec 3 (2 * 7) ((0 : ℝ), (0 : ℝ), (2 : ℝ))) :=
  csa_C2 [((0 : ℝ), (0 : ℝ), (2 : ℝ))] (fun _ => 3) 0 0 2 7 0 (by norm_num) (by norm_num)

/-- C3 (amended): when the tangent lookup fails inside the slice range the
loop emits one recoverable warning per failing slice and computes the CSA of those slices with the *last successfully computed* normal — it neither
skips the slice nor substitutes the axis-aligned assumption, and it never
raises an index-out-of-range fault; in the (real-data-unreachable) case of
an empty derivative sequence the first iteration instead dies with a
`NameError` because `normal` was never assigned. -/
theorem csa_C3_amended (deriv : List (ℝ × ℝ × ℝ)) (sliceSum : ℕ → ℝ)
    (minZ maxZ : ℕ) (px py : ℝ) :
    (deriv = [] → minZ ≤ maxZ →
      compute_csa_loop deriv sliceSum minZ maxZ px py
        = .error (.nameError nameErrMsg)) ∧
    (deriv ≠ [] → deriv.length ≤ maxZ - minZ →
      compute_csa_loop deriv sliceSum minZ maxZ px py =
        .ok ((List.range deriv.length).map (fun k => csaSlice (sliceSum (minZ + k)) px py
                (normalizeVec (deriv.getD k (0, 0, 0))))
             ++ (List.range (maxZ + 1 - minZ - deriv.length)).map (fun j =>
                csaSlice (sliceSum (minZ + (deriv.length + j))) px py
                  (normalizeVec (deriv.getD (deriv.length - 1) (0, 0, 0)))),
             (List.range (maxZ + 1 - minZ - deriv.length)).map
               (fun _ => discontinuityMsg))) := by
  constructor
  · intro hnil hle
    subst hnil
    unfold compute_csa_loop
    rw [show maxZ + 1 - minZ = (maxZ - minZ) + 1 by omega, List.range_succ_eq_map]
    rfl
  · intro hne hlen
    exact compute_csa_loop_char deriv sliceSum minZ maxZ px py hne (by omega)

/-- C3 (witness): empty derivative sequence, slice range of length one —
the loop raises `NameError`, not an index fault. -/
theorem csa_C3_amended_witness :
    compute_csa_loop [] (fun _ => 1) 0 0 1 1 = .error (.nameError nameErrMsg) :=
  (csa_C3_amended [] (fun _ => 1) 0 0 1 1).1 rfl (by norm_num)

/-- C3 (counterexample): derivative sequence with a single entry (3, 0, 4)
and slice range 0..1 — the lookup of the second slice fails, a warning is
printed, and its CSA is 4/5 (computed from the tangent of the *previous* slice),
which is neither the skip policy (the slice is present in the array) nor
the axis-aligned policy θ = 0 (which would give CSA 1). -/
theorem csa_C3_counterexample :
    compute_csa_loop [((3 : ℝ), (0 : ℝ), (4 : ℝ))] (fun _ => 1) 0 1 1 1
      = .ok ([4 / 5, 4 / 5], [discontinuityMsg]) ∧ ((4 : ℝ) / 5) ≠ 1 := by
  have hs : Real.sqrt ((3 : ℝ) ^ 2 + (0 : ℝ) ^ 2 + (4 : ℝ) ^ 2) = 5 := by
    rw [show (3 : ℝ) ^ 2 + (0 : ℝ) ^ 2 + (4 : ℝ) ^ 2 = 5 ^ 2 by norm_num]
    exact Real.sqrt_sq (by norm_num)
  have hn : normalizeVec ((3 : ℝ), (0 : ℝ), (4 : ℝ)) = (3 / 5, 0, 4 / 5) := by
    unfold normalizeVec
    rw [hs]
    norm_num
  have hcos : Real.cos (sliceAngle ((3 : ℝ) / 5, (0 : ℝ), (4 : ℝ) / 5)) = 4 / 5 := by
    unfold sliceAngle
    rw [show (3 : ℝ) / 5 * 0 + (0 : ℝ) * 0 + (4 : ℝ) / 5 * 1 = 4 / 5 by ring]
    exact Real.cos_arccos (by norm_num) (by norm_num)
  have hval : csaSlice 1 1 1 (normalizeVec ((3 : ℝ), (0 : ℝ), (4 : ℝ))) = 4 / 5 := by
    unfold csaSlice
    rw [hn, hcos]
    norm_num
  have hchar := compute_csa_loop_char [((3 : ℝ), (0 : ℝ), (4 : ℝ))] (fun _ => 1) 0 1 1 1
    (by simp) (by norm_num)
  refine ⟨?_, by norm_num⟩
  rw [hchar]
  simp only [List.length_singleton]
  norm_num
  rw [show List.range 1 = [0] from rfl]
  simp [hval]

/-- C5 (amended): the aggregation stage outputs the arithmetic mean and the
total volume required by the spec, but its standard deviation is the
*population* standard deviation (denominator N, the numpy default of zero delta degrees of freedom),
not the sample standard deviation with the N-1 denominator; squaring the
reported deviation and multiplying by N recovers the sum of squared
deviations. -/
theorem csa_C5_amended (csaFile : List (ℕ × ℝ)) (segSum : ℕ → ℝ)
    (px py pz : ℝ) (a b : ℕ) :
    aggregateCSA csaFile segSum px py pz a b
      = (specMean (selectedCSA csaFile a b), specPopStd (selectedCSA csaFile a b),
         specVolume segSum px py pz (slicesList a b)) ∧
    ((aggregateCSA csaFile segSum px py pz a b).2.1) ^ 2
        * ((selectedCSA csaFile a b).length : ℝ)
      = ((selectedCSA csaFile a b).map
          (fun x => (x - specMean (selectedCSA csaFile a b)) ^ 2)).sum := by
  constructor
  · rfl
  · have hS : 0 ≤ ((selectedCSA csaFile a b).map
        (fun x => (x - specMean (selectedCSA csaFile a b)) ^ 2)).sum :=
      List.sum_nonneg (by
        intro x hx
        simp only [List.mem_map] at hx
        obtain ⟨y, -, rfl⟩ := hx
        exact sq_nonneg _)
    have hq : 0 ≤ ((selectedCSA csaFile a b).map
        (fun x => (x - specMean (selectedCSA csaFile a b)) ^ 2)).sum
        / ((selectedCSA csaFile a b).length : ℝ) :=
      div_nonneg hS (by positivity)
    show (np_std (selectedCSA csaFile a b)) ^ 2 * _ = _
    unfold np_std
    rw [Real.sq_sqrt]
    · rcases Nat.eq_zero_or_pos (selectedCSA csaFile a b).length with h0 | h0
      · rw [List.length_eq_zero] at h0
        rw [h0]
        simp
      · rw [show (np_mean (selectedCSA csaFile a b)) = specMean (selectedCSA csaFile a b)
            from rfl]
        rw [div_mul_cancel₀]
        exact Nat.cast_ne_zero.2 (by omega)
    · exact div_nonneg (List.sum_nonneg (by
        intro x hx
        simp only [List.mem_map] at hx
        obtain ⟨y, -, rfl⟩ := hx
        exact sq_nonneg _)) (by positivity)

/-- C5 (counterexample): selecting the CSA file lines (0, 0) and (1, 2)
over slices 0..1 gives the values [0, 2]; the code reports the standard
deviation 1 (denominator N), while the sample standard deviation with the
N-1 denominator the claim requires is √2 ≠ 1. -/
theorem csa_C5_counterexample :
    selectedCSA [(0, (0 : ℝ)), (1, 2)] 0 1 = [0, 2] ∧
    (aggregateCSA [(0, (0 : ℝ)), (1, 2)] (fun _ => 0) 1 1 1 0 1).2.1 = 1 ∧
    specSampleStd [(0 : ℝ), 2] = Real.sqrt 2 ∧
    (aggregateCSA [(0, (0 : ℝ)), (1, 2)] (fun _ => 0) 1 1 1 0 1).2.1
      ≠ specSampleStd [(0 : ℝ), 2] := by
  have hsel : selectedCSA [(0, (0 : ℝ)), (1, 2)] 0 1 = [0, 2] := by
    rfl
  have hmean : np_mean [(0 : ℝ), 2] = 1 := by
    unfold np_mean
    norm_num
  have hstd : np_std [(0 : ℝ), 2] = 1 := by
    unfold np_std
    rw [hmean]
    norm_num [Real.sqrt_one]
  have hsmean : specMean [(0 : ℝ), 2] = 1 := by
    unfold specMean
    norm_num
  have hsample : specSampleStd [(0 : ℝ), 2] = Real.sqrt 2 := by
    unfold specSampleStd
    rw [hsmean]
    norm_num
  have hlt : (1 : ℝ) < Real.sqrt 2 := by
    rw [show (1 : ℝ) = Real.sqrt 1 from Real.sqrt_one.symm]
    exact Real.sqrt_lt_sqrt (by norm_num) (by norm_num)
  have hout : (aggregateCSA [(0, (0 : ℝ)), (1, 2)] (fun _ => 0) 1 1 1 0 1).2.1 = 1 := by
    show np_std (selectedCSA [(0, (0 : ℝ)), (1, 2)] 0 1) = 1
    rw [hsel, hstd]
  refine ⟨hsel, hout, hsample, ?_⟩
  rw [hout, hsample]
  exact ne_of_lt hlt

/-- Reading every position of a list with `getD` reproduces the list. -/
lemma map_getD_range (xs : List ℝ) :
    (List.range xs.length).map (fun i => xs.getD i 0) = xs := by
  induction xs with
  | nil => rfl
  | cons x xs ih =>
    rw [List.length_cons, List.range_succ_eq_map, List.map_cons, List.map_map]
    congr 1

/-- C9: the smoothing stage with smoothing parameter 0 (Python falsy)
leaves the CSA array unchanged, and the spec-modelled windowed smoothing
with a window of length one (any nonzero weight, normalized to [1]) is
also the identity. -/
theorem csa_C9 (w : List ℝ) (csa : List ℝ) :
    smoothCSAStage w 0 csa = csa ∧
    (∀ c : ℝ, c ≠ 0 → smoothing_window [c] csa = csa) := by
  constructor
  · simp [smoothCSAStage]
  · intro c hc
    unfold smoothing_window
    simp only [List.length_cons, List.length_nil, List.sum_cons, List.sum_nil,
      add_zero, Nat.sub_self, Nat.zero_div]
    rw [show List.range 1 = [0] from rfl]
    simp only [List.map_cons, List.map_nil, List.sum_cons, List.sum_nil, add_zero]
    rw [show ([c].getD 0 0) = c from rfl]
    rw [div_self hc]
    simp only [one_mul, Nat.add_zero, Nat.sub_zero]
    exact map_getD_range csa

/-- C9 (witness): window [2], CSA array [5, 7]. -/
theorem csa_C9_witness :
    smoothCSAStage [(2 : ℝ)] 0 [5, 7] = [5, 7] ∧
    smoothing_window [(2 : ℝ)] [5, 7] = [5, 7] :=
  ⟨(csa_C9 [2] [5, 7]).1, (csa_C9 [2] [5, 7]).2 2 (by norm_num)⟩
